import Mathlib

/-!
Verification of `findbad_catastrophic.js` — a tool that walks an ext2/3/4
filesystem's metadata (through an external `debugfs` subprocess) and reports
every file or directory whose data blocks or inode record overlap a fixed set
of damaged byte ranges.

This file is a shallow embedding of the program's pure core into Lean:
JavaScript numbers in the safe-integer regime are modelled as `Nat`,
`Buffer`s as `List Nat` of byte values, strings as `List Char`, the debugfs
subprocess as an oracle function from commands to reply text, and the
asynchronous prompt-multiplexer (`expect`) as an explicit state machine over
an event trace.  Theorems below settle the specification's claims against
these definitions.
-/

namespace Findbad

/-! ## Byte buffers

`Buffer.readUint16LE` / `Buffer.readUint32LE` on a byte buffer.  The source
only ever reads in bounds of its fixed-size (60/256/4096-byte) buffers; the
model reads 0 past the end. -/

def byteAt (buf : List Nat) (i : Nat) : Nat := buf.getD i 0

def readUInt16LE (buf : List Nat) (off : Nat) : Nat :=
  byteAt buf off + 256 * byteAt buf (off + 1)

def readUInt32LE (buf : List Nat) (off : Nat) : Nat :=
  byteAt buf off + 256 * byteAt buf (off + 1)
    + 65536 * byteAt buf (off + 2) + 16777216 * byteAt buf (off + 3)

/-! ## Bad-Region Index (source lines 271–294)

`badRanges` is the configured literal set; `rangeIsSafe(start, end)` loops
over it and returns `false` as soon as one range overlaps the queried
half-open byte interval.  The loop with early return is rendered as
`List.all`, which is extensionally the same conjunction. -/

structure BadRange where
  start : Nat
  length : Nat
  deriving DecidableEq

def badRanges : List BadRange :=
  [ ⟨0x23bad54000, 0x294000⟩
  , ⟨0x23ef054000, 0x294000⟩
  , ⟨0x23ef654000, 0x294000⟩
  , ⟨0x23feadc000, 0x294000⟩
  , ⟨0x241f9dc000, 0x1539973e00⟩
  , ⟨0x398da03000, 0x0a00⟩ ]

def rangeIsSafe (s e : Nat) : Bool :=
  badRanges.all (fun range => !(decide (e > range.start) && decide (s < range.start + range.length)))

def blockIsSafe (blockNum : Nat) : Bool :=
  rangeIsSafe (blockNum * 4096) ((blockNum + 1) * 4096)

/-! ## Inode Table Locator (source lines 115–121)

`getAddressOfInode` over the parsed group → inode-table-offset map.  The map
is modelled as a map into `Option`; the `throw` on a missing group becomes
`none`. -/

def getAddressOfInode (tbl : Nat → Option Nat) (inode : Nat) : Option Nat :=
  let group := (inode - 1) / 8028
  let index := (inode - 1) % 8028
  match tbl group with
  | none => none
  | some startOfInodeTable => some (startOfInodeTable + index * 256)

/-- A concrete two-group table used to witness the address formula. -/
def tblW : Nat → Option Nat :=
  fun g => if g = 0 then some 4096000 else if g = 1 then some 8192000 else none

/-! ## Inode record fields (source lines 138–169) -/

def S_IFDIR : Nat := 0x4000
def S_IFREG : Nat := 0x8000
def S_EXTENTS : Nat := 0x080000

def isDir (buf : List Nat) : Bool := decide (readUInt16LE buf 0 &&& S_IFDIR ≠ 0)

def isFile (buf : List Nat) : Bool := decide (readUInt16LE buf 0 &&& S_IFREG ≠ 0)

def usesExtents (buf : List Nat) : Bool := decide (readUInt32LE buf 0x20 &&& S_EXTENTS ≠ 0)

/-- Source: `const bytes = this.buf.readUint32LE(0x04); return Math.ceil(bytes / 4096)`.
`bytes / 4096` is exact in double arithmetic for a 32-bit numerator, so
`Math.ceil` is the usual natural-number ceiling division. -/
def blocksInUse (buf : List Nat) : Nat :=
  let bytes := readUInt32LE buf 0x04
  (bytes + 4095) / 4096

/-- Modelled from the spec: the spec describes `blockCountInUse` as the ceiling of
the inode's reported 512-byte-sector count divided by the number of 512-byte
sectors per 4096-byte filesystem block (8).  The reported 512-byte-sector count
of an ext2/3/4 inode record is the 32-bit little-endian `i_blocks` field at byte
offset 0x1C (the code does not read this field; this definition exists only to
compare the spec's description with the code's `blocksInUse`). -/
def blockCountInUseSpec (buf : List Nat) : Nat :=
  (readUInt32LE buf 0x1C + 7) / 8

/-- Source `this.buf.slice(0x28, 0x28 + 60)` — the 60-byte block-mapping area. -/
def get_i_block (buf : List Nat) : List Nat := (buf.drop 0x28).take 60

/-- An inode record whose 32-bit field at offset 4 holds 512 and whose
`i_blocks` field at offset 0x1C holds 0; it separates the code's computation
from the spec's description of it. -/
def inodeC2 : List Nat := ((List.replicate 256 0).set 5 2 : List Nat)

/-! ## Hex-Dump Decoder (source lines 123–136)

`parseHexRegex = /^([0-7]{4})  (\w\w\w\w) ... (\w\w\w\w)/gm` — an octal
4-digit byte offset, two spaces, then eight 4-character words of `\w`
characters separated by single spaces (45 characters in all; the rest of the
line is unconstrained).  `parseHex(size, hex)` allocates a zero buffer of
`size` bytes and, for every line matching the pattern, stores the sixteen
decoded bytes at `start..start+15`; a store past the end of a `Uint8Array`
is silently dropped. -/

/-- Split into lines at every JavaScript line terminator the `m` flag
recognises in this input (`\n` and `\r`). -/
def jsLines : List Char → List (List Char)
  | [] => [[]]
  | c :: rest =>
    if c = '\n' ∨ c = '\r' then [] :: jsLines rest
    else
      match jsLines rest with
      | [] => [[c]]
      | l :: ls => (c :: l) :: ls

def isOctalCh (c : Char) : Bool := decide ('0' ≤ c ∧ c ≤ '7')

/-- JavaScript `\w`, i.e. `[A-Za-z0-9_]`. -/
def isWordCh (c : Char) : Bool := c.isAlphanum || decide (c = '_')

def octDigit (c : Char) : Nat := c.toNat - '0'.toNat

/-- JavaScript `parseInt(s, 8)` on the four octal digits of the offset field. -/
def octValue4 (cs : List Char) : Nat := cs.foldl (fun acc c => 8 * acc + octDigit c) 0

def hexDigit? (c : Char) : Option Nat :=
  if '0' ≤ c ∧ c ≤ '9' then some (c.toNat - '0'.toNat)
  else if 'a' ≤ c ∧ c ≤ 'f' then some (c.toNat - 'a'.toNat + 10)
  else if 'A' ≤ c ∧ c ≤ 'F' then some (c.toNat - 'A'.toNat + 10)
  else none

/-- JavaScript `parseInt(w.substr(k, 2), 16)` followed by a `Uint8Array` store:
`parseInt` parses the longest hex prefix (`NaN` when empty), and storing `NaN`
writes byte 0. -/
def jsParseIntHex2 (c1 c2 : Char) : Nat :=
  match hexDigit? c1 with
  | none => 0
  | some v1 =>
    match hexDigit? c2 with
    | none => v1
    | some v2 => 16 * v1 + v2

/-- Whether a line matches `parseHexRegex`, and if so its octal offset value
and the eight 4-character words. -/
def parseHexLine (line : List Char) : Option (Nat × List (List Char)) :=
  if 45 ≤ line.length
      ∧ (line.take 4).all isOctalCh
      ∧ line.getD 4 'x' = ' ' ∧ line.getD 5 'x' = ' '
      ∧ (∀ j, j < 8 → ((line.drop (6 + 5 * j)).take 4).all isWordCh)
      ∧ (∀ j, j < 7 → line.getD (6 + 5 * j + 4) 'x' = ' ')
  then some (octValue4 (line.take 4), (List.range 8).map (fun j => (line.drop (6 + 5 * j)).take 4))
  else none

/-- A `Uint8Array` store `buffer[pos] = v`: out-of-bounds stores are dropped. -/
def writeByte (buf : List Nat) (pos v : Nat) : List Nat :=
  if pos < buf.length then buf.set pos v else buf

/-- Byte `i` of a matched line, taken from word `i / 2`:
`parseInt(match[Math.floor(i / 2) + 2].substr((i % 2) * 2, 2), 16)`. -/
def byteOfWords (words : List (List Char)) (i : Nat) : Nat :=
  jsParseIntHex2 ((words.getD (i / 2) []).getD (i % 2 * 2) 'x')
    ((words.getD (i / 2) []).getD (i % 2 * 2 + 1) 'x')

/-- The inner `for (let i = 0; i < 16; i++) buffer[start + i] = ...` loop. -/
def applyMatch (buf : List Nat) (start : Nat) (words : List (List Char)) : List Nat :=
  (List.range 16).foldl (fun b i => writeByte b (start + i) (byteOfWords words i)) buf

/-- Processing of one line by the `while ((match = parseHexRegex.exec(hex)))`
loop: a non-matching line leaves the buffer untouched. -/
def parseHexStep (b : List Nat) (line : List Char) : List Nat :=
  match parseHexLine line with
  | none => b
  | some (start, words) => applyMatch b start words

/-- Decoding `parseHex(size, hex)`: the regex's `^…/gm` matches are exactly the
matching prefixes of the input's lines, in order, so the exec loop is a fold
of `parseHexStep` over the lines. -/
def parseHex (size : Nat) (hex : List Char) : List Nat :=
  (jsLines hex).foldl parseHexStep (List.replicate size 0)

/-- The debugfs `bd` reply for a block number, decoded to a 4096-byte buffer
(`parseHex(4096, await debugfsCmd('bd ' + child))`); the subprocess reply text
is abstracted as the oracle `resp`. -/
def fetchBlock (resp : Nat → List Char) (blockNum : Nat) : List Nat :=
  parseHex 4096 (resp blockNum)

/-- The oracle of a debugfs session whose every `bd` reply is empty text
(every fetched block decodes to 4096 zero bytes). -/
def respZero : Nat → List Char := fun _ => []

/-- A concrete hex dump: one matching line at octal offset 0020 (byte 16). -/
def hexW : List Char := "0020  dead beef 0123 4567 89ab cdef 0011 2233".toList

/-! ## Extent-tree resolution (source lines 177–196)

`extentsAreSafe(buf)` walks one node of the extent tree held in `buf`:
`entryCount` at offset 2, `depth` at offset 6, entry `i` at offset
`12 * (i + 1)`.  At depth 0 each entry is a leaf run; otherwise each entry
names a child block that is fetched with `bd` and recursed into.  The source
recursion is bounded only by the on-disk tree; `fuel` bounds it in the model
and every theorem uses positive fuel.  The entry-order for-loop with early
`return false` is the short-circuiting `List.all`. -/

def extentsAreSafe (resp : Nat → List Char) : Nat → List Nat → Bool
  | 0, _ => false
  | fuel + 1, buf =>
    let entryCount := readUInt16LE buf 0x02
    let depth := readUInt16LE buf 0x06
    let leaf := depth == 0
    (List.range entryCount).all (fun i =>
      if leaf then
        let firstBlockNum := readUInt32LE buf (12 * (i + 1) + 0x08)
        let blockCount := readUInt16LE buf (12 * (i + 1) + 0x04)
        rangeIsSafe (firstBlockNum * 4096) ((firstBlockNum + blockCount) * 4096)
      else
        let child := readUInt32LE buf (12 * (i + 1) + 0x04)
        extentsAreSafe resp fuel (fetchBlock resp child))

/-- A 60-byte leaf node with one entry `{firstBlock: 10, blockCount: 2}`. -/
def extentLeaf102 : List Nat := (((List.replicate 60 0).set 2 1).set 16 2).set 20 10

/-! ## Classic indirect-block resolution (source lines 198–262)

The resolver is embedded in an instrumented form: every function returns,
besides the boolean the source computes, the chronological list of block
numbers fetched with the debugfs `bd` command and the chronological list of
block numbers passed to `blockIsSafe` — so that claims about which pointers
are consulted are statements about the definitions. -/

def blockIdsPerBlock : Nat := 4096 / 4

def blockCountsL1 : Nat := 1024
def blockCountsL2 : Nat := 1024 ^ 2
def blockCountsL3 : Nat := 1024 ^ 3

/-- Result of an instrumented run: the boolean the source returns, the block
numbers fetched via `bd`, and the block numbers tested via `blockIsSafe`. -/
structure BTrace where
  result : Bool
  fetched : List Nat
  tested : List Nat
  deriving DecidableEq

/-- A `for`-loop testing `n` consecutive 32-bit pointers of `buf` starting at
entry `i`, with early `return false` on the first unsafe pointer — the shape
of the direct-pointer loop of `blocksAreSafe` and of the loop of
`blocksL1AreSafe`.  Also returns the pointers tested, in order. -/
def checkBlockPtrs (buf : List Nat) : Nat → Nat → Bool × List Nat
  | _, 0 => (true, [])
  | i, n + 1 =>
    let p := readUInt32LE buf (i * 4)
    if blockIsSafe p then
      let r := checkBlockPtrs buf (i + 1) n
      (r.1, p :: r.2)
    else (false, [p])

def blocksL1AreSafeT (resp : Nat → List Char) (blockNum level1Blocks : Nat) : BTrace :=
  let buffer := fetchBlock resp blockNum
  let r := checkBlockPtrs buffer 0 level1Blocks
  ⟨r.1, [blockNum], r.2⟩

/-- The loop of `blocksL2AreSafe` from entry `i` with `n` entries to go.  The
JavaScript `(Math.min(level2Blocks, (i + 1) * blockIdsPerBlock) % blockIdsPerBlock) || blockIdsPerBlock`
idiom (`0 || k` is `k`) becomes the explicit zero test. -/
def blocksL2Loop (resp : Nat → List Char) (buffer : List Nat) (level2Blocks : Nat) :
    Nat → Nat → BTrace
  | _, 0 => ⟨true, [], []⟩
  | i, n + 1 =>
    let pointer := readUInt32LE buffer (i * 4)
    if !blockIsSafe pointer then ⟨false, [], [pointer]⟩
    else
      let level1Blocks :=
        let v := min level2Blocks ((i + 1) * blockIdsPerBlock) % blockIdsPerBlock
        if v = 0 then blockIdsPerBlock else v
      let t1 := blocksL1AreSafeT resp pointer level1Blocks
      if !t1.result then ⟨false, t1.fetched, pointer :: t1.tested⟩
      else
        let rest := blocksL2Loop resp buffer level2Blocks (i + 1) n
        ⟨rest.result, t1.fetched ++ rest.fetched, pointer :: (t1.tested ++ rest.tested)⟩

def blocksL2AreSafeT (resp : Nat → List Char) (blockNum level2Blocks : Nat) : BTrace :=
  let buffer := fetchBlock resp blockNum
  let pointers := (level2Blocks + blockIdsPerBlock - 1) / blockIdsPerBlock
  let r := blocksL2Loop resp buffer level2Blocks 0 pointers
  ⟨r.result, blockNum :: r.fetched, r.tested⟩

/-- The loop of `blocksL3AreSafe` from entry `i` with `n` entries to go. -/
def blocksL3Loop (resp : Nat → List Char) (buffer : List Nat) (level3Blocks : Nat) :
    Nat → Nat → BTrace
  | _, 0 => ⟨true, [], []⟩
  | i, n + 1 =>
    let pointer := readUInt32LE buffer (i * 4)
    if !blockIsSafe pointer then ⟨false, [], [pointer]⟩
    else
      let level2Blocks :=
        let v := min level3Blocks ((i + 1) * blockIdsPerBlock ^ 2) % blockIdsPerBlock ^ 2
        if v = 0 then blockIdsPerBlock ^ 2 else v
      let t2 := blocksL2AreSafeT resp pointer level2Blocks
      if !t2.result then ⟨false, t2.fetched, pointer :: t2.tested⟩
      else
        let rest := blocksL3Loop resp buffer level3Blocks (i + 1) n
        ⟨rest.result, t2.fetched ++ rest.fetched, pointer :: (t2.tested ++ rest.tested)⟩

def blocksL3AreSafeT (resp : Nat → List Char) (blockNum level3Blocks : Nat) : BTrace :=
  let buffer := fetchBlock resp blockNum
  let pointers := (level3Blocks + blockIdsPerBlock ^ 2 - 1) / blockIdsPerBlock ^ 2
  let r := blocksL3Loop resp buffer level3Blocks 0 pointers
  ⟨r.result, blockNum :: r.fetched, r.tested⟩

/-- Source `blocksAreSafe(i_block)` (lines 198–224).  The JavaScript
`if (levelkBlocks <= 0) return true` tests become `= 0` on `Nat` (the
`Math.min`/subtraction operands are non-negative). -/
def blocksAreSafeT (resp : Nat → List Char) (buf : List Nat) : BTrace :=
  let i_blk := get_i_block buf
  let b := blocksInUse buf
  let directBlocks := min 12 b
  let rd := checkBlockPtrs i_blk 0 directBlocks
  if !rd.1 then ⟨false, [], rd.2⟩
  else
    let level1Blocks := min blockCountsL1 (b - directBlocks)
    if level1Blocks = 0 then ⟨true, [], rd.2⟩
    else
      let t1 := blocksL1AreSafeT resp (readUInt32LE i_blk (12 * 4)) level1Blocks
      if !t1.result then ⟨false, t1.fetched, rd.2 ++ t1.tested⟩
      else
        let level2Blocks := min blockCountsL2 (b - directBlocks - level1Blocks)
        if level2Blocks = 0 then ⟨true, t1.fetched, rd.2 ++ t1.tested⟩
        else
          let t2 := blocksL2AreSafeT resp (readUInt32LE i_blk (13 * 4)) level2Blocks
          if !t2.result then ⟨false, t1.fetched ++ t2.fetched, rd.2 ++ t1.tested ++ t2.tested⟩
          else
            let level3Blocks := min blockCountsL3 (b - directBlocks - level1Blocks - level2Blocks)
            if level3Blocks = 0 then ⟨true, t1.fetched ++ t2.fetched, rd.2 ++ t1.tested ++ t2.tested⟩
            else
              let t3 := blocksL3AreSafeT resp (readUInt32LE i_blk (14 * 4)) level3Blocks
              ⟨t3.result, t1.fetched ++ t2.fetched ++ t3.fetched,
                rd.2 ++ t1.tested ++ t2.tested ++ t3.tested⟩

def blocksAreSafe (resp : Nat → List Char) (buf : List Nat) : Bool :=
  (blocksAreSafeT resp buf).result

/-- Dispatch of `dataIsSafe()` (source lines 171–175) on the extents flag. -/
def dataIsSafe (resp : Nat → List Char) (fuel : Nat) (buf : List Nat) : Bool :=
  if usesExtents buf then extentsAreSafe resp fuel (get_i_block buf)
  else blocksAreSafe resp buf

/-! ## Filesystem Walker fragments (source lines 339–376) -/

/-- JavaScript `x ?? d` on a string-or-nullish value: only `null`/`undefined`
(modelled `none`) select the default; the empty string does not. -/
def jsNullishStr (x : Option String) (d : String) : String :=
  match x with
  | some s => s
  | none => d

/-- One directory entry's treatment by the walker loop (source lines
362–375), given the entry's decoded inode record: whether a `BAD` line is
printed for it, and whether it is recursed into as a directory. -/
def entryStep (resp : Nat → List Char) (fuel : Nat) (buf : List Nat) : Bool × Bool :=
  if isFile buf then
    if !dataIsSafe resp fuel buf then (true, false)
    else if isDir buf then (false, true)
    else (false, false)
  else if isDir buf then (false, true)
  else (false, false)

/-- The head of `recurse` (source lines 339–346): if the directory's own data
is unsafe, print `BAD ${path ?? '/'}` and return without listing the
directory; otherwise proceed to the listing.  Returns the lines printed and
whether the listing is requested.  `recurse` is always called with a string
path (the root call passes the empty string), so the embedded `??` receives
`some path`. -/
def recurseStep (resp : Nat → List Char) (fuel : Nat) (path : String) (buf : List Nat) :
    List String × Bool :=
  if !dataIsSafe resp fuel buf then
    (["BAD " ++ jsNullishStr (some path) "/"], false)
  else ([], true)

/-- An inode record with mode 0xA1FF — a symbolic link (`lrwxrwxrwx`) — whose
first block pointer lies inside the first configured bad range, and whose
32-bit field at offset 4 holds 4096 so that one block is in use. -/
def inodeSymlink : List Nat :=
  ((((((((List.replicate 256 0).set 0 0xFF).set 1 0xA1).set 5 0x10).set 40 0x54).set
    41 0xAD).set 42 0x3B).set 43 0x02)

/-- An inode record with mode 0xC100 — a socket. -/
def inodeSocket : List Nat := (List.replicate 256 0).set 1 0xC1

/-- A root-directory inode record using extent addressing whose single leaf
entry `{firstBlock: 0x23bad54, blockCount: 1}` lies inside the first
configured bad range. -/
def inodeRootBad : List Nat :=
  (((((((List.replicate 256 0).set 34 0x08).set 42 1).set 56 1).set 60 0x54).set
    61 0xAD).set 62 0x3B).set 63 0x02

/-- Does `p` occur at the very start of `s`? -/
def isPre (p s : List Char) : Bool := decide (s.take p.length = p)

/-- JavaScript `s.indexOf(p)`: the first index at which `p` occurs in `s`. -/
def indexOfFrom : List Char → List Char → Option Nat
  | [], p => if p.isEmpty then some 0 else none
  | c :: rest, p =>
    if isPre p (c :: rest) then some 0 else (indexOfFrom rest p).map (· + 1)

/-- The body of the source's
`while ((index = sinceLastMatch.indexOf(prompt)) !== -1)` loop: each
iteration cuts `match = s.substring(0, index)` and continues on
`rest = s.substring(index + prompt.length)`, collecting the matches and the
final remainder.  Recursion is fuel-bounded; each iteration consumes at least
one character when the prompt is nonempty, so `s.length + 1` units always
suffice (`lookForPrompt` below). -/
def splitGo (prompt : List Char) : Nat → List Char → List (List Char) × List Char
  | 0, s => ([], s)
  | fuel + 1, s =>
    match indexOfFrom s prompt with
    | none => ([], s)
    | some i =>
      let r := splitGo prompt fuel (s.drop (i + prompt.length))
      (s.take i :: r.1, r.2)

/-- The `lookForPrompt` pass over accumulated text `s`: all prompt-delimited matches
in order, and the remainder kept as `sinceLastMatch`. -/
def lookForPrompt (prompt s : List Char) : List (List Char) × List Char :=
  splitGo prompt (s.length + 1) s

/-- State of one `expect(stream, prompt)` instance: the `found` buffer of
already-received responses, the FIFO queue `promiseResolvers` of pending
caller ids, the text `sinceLastMatch`, and whether `dispose()` has run
(after which the listeners are off and `streamError` is the disposed
error). -/
structure ExpState where
  found : List (List Char)
  pending : List Nat
  buf : List Char
  dead : Bool
  deriving DecidableEq

def expInit : ExpState := ⟨[], [], [], false⟩

inductive Ev where
  | data (chunk : List Char)
  | next (id : Nat)
  | dispose
  deriving DecidableEq

/-- A resolved call: `some` text for a fulfilled promise, `none` for one
rejected with the disposed error. -/
abbrev Resolution := Nat × Option (List Char)

/-- Dispatch by `lookForPrompt` of the extracted matches, in order: each match
resolves the oldest pending resolver (`promiseResolvers.shift()`), or is
pushed onto `found` when no resolver is waiting. -/
def dispatchMs : List (List Char) → List Nat → List (List Char) →
    List Nat × List (List Char) × List Resolution
  | [], pend, found => (pend, found, [])
  | m :: ms, p :: ps, found =>
    let r := dispatchMs ms ps found
    (r.1, r.2.1, (p, some m) :: r.2.2)
  | m :: ms, [], found => dispatchMs ms [] (found ++ [m])

/-- One event of the multiplexer.  `data`: append the chunk to
`sinceLastMatch`, extract every complete response and dispatch each (ignored
after `dispose`, which detached the listener).  `next`: return the oldest
buffered response immediately if any — the source checks `found` before
`streamError`, also after disposal — otherwise fail at once when disposed,
otherwise enqueue the caller.  `dispose`: reject every pending caller with
the disposed error and detach. -/
def step (prompt : List Char) (s : ExpState) : Ev → ExpState × List Resolution
  | .data chunk =>
    if s.dead then (s, [])
    else
      let r := lookForPrompt prompt (s.buf ++ chunk)
      let d := dispatchMs r.1 s.pending s.found
      ({ s with buf := r.2, pending := d.1, found := d.2.1 }, d.2.2)
  | .next id =>
    match s.found with
    | m :: ms => ({ s with found := ms }, [(id, some m)])
    | [] =>
      if s.dead then (s, [(id, none)])
      else ({ s with pending := s.pending ++ [id] }, [])
  | .dispose =>
    ({ s with dead := true, pending := [] }, s.pending.map (fun p => (p, none)))

/-- Run the multiplexer over an event trace, collecting the resolutions in
chronological order. -/
def runExp (prompt : List Char) : ExpState → List Ev → ExpState × List Resolution
  | s, [] => (s, [])
  | s, e :: es =>
    let r := step prompt s e
    let rr := runExp prompt r.1 es
    (rr.1, r.2 ++ rr.2)

/-- The caller ids of the `next()` calls of a trace, in issue order. -/
def nextIds (t : List Ev) : List Nat :=
  t.filterMap (fun e => match e with | Ev.next id => some id | _ => none)

/-- The full byte stream of a trace: its data chunks concatenated. -/
def dataBytes (t : List Ev) : List Char :=
  (t.filterMap (fun e => match e with | Ev.data c => some c | _ => none)).flatten

def promptW : List Char := ['P']

def chunkHiP : List Char := ['h', 'i', 'P']

end Findbad

namespace Findbad

/-! # Theorems -/

/-- Claim C1: for all byte offsets, the Bad-Region Index query is unsafe
(`rangeIsSafe start end = false`) iff some configured bad range `r` satisfies
`end > r.start ∧ start < r.start + r.length` — the OR of the per-range overlap
tests.  The query is a pure function of its arguments (it is a Lean `def` with
no state), so it has no side effects. -/
theorem rangeIsSafe_c1 (s e : Nat) :
    rangeIsSafe s e = false ↔ ∃ r ∈ badRanges, e > r.start ∧ s < r.start + r.length := by
  constructor
  · intro h
    by_contra hn
    push_neg at hn
    have htrue : rangeIsSafe s e = true := by
      rw [rangeIsSafe, List.all_eq_true]
      intro r hr
      cases hgt : decide (e > r.start) with
      | false => simp [hgt]
      | true =>
        have hlt : ¬ s < r.start + r.length := Nat.not_lt.mpr (hn r hr (by simpa using hgt))
        simp [hgt, hlt]
    rw [h] at htrue
    exact Bool.false_ne_true htrue
  · rintro ⟨r, hr, h1, h2⟩
    by_contra hne
    have htrue : rangeIsSafe s e = true := by
      cases hh : rangeIsSafe s e
      · exact absurd hh hne
      · rfl
    rw [rangeIsSafe, List.all_eq_true] at htrue
    have := htrue r hr
    simp [h1, h2] at this

/-- Claim C2 (counterexample): the code's `blocksInUse` is not the ceiling of
the inode's reported 512-byte-sector count over 8.  On the concrete record
`inodeC2` (512 in the 32-bit field at offset 4, zero `i_blocks` at 0x1C) the
code yields 1 while the spec's formula yields 0. -/
theorem blocksInUse_c2_counterexample :
    blocksInUse inodeC2 = 1 ∧ blockCountInUseSpec inodeC2 = 0 ∧
      blocksInUse inodeC2 ≠ blockCountInUseSpec inodeC2 := by decide

/-- Claim C2 (amended): `blocksInUse` is the ceiling of the inode's 32-bit
little-endian field at byte offset 4 (the record's reported byte size, which
the code names `bytes`) divided by the 4096-byte filesystem block size —
characterised here as the least `n` with `bytes ≤ 4096 * n`. -/
theorem blocksInUse_c2_amended (buf : List Nat) (n : Nat) :
    blocksInUse buf ≤ n ↔ readUInt32LE buf 0x04 ≤ 4096 * n := by
  show (readUInt32LE buf 0x04 + 4095) / 4096 ≤ n ↔ _
  omega

/-- Claim C7: for every inode number `n ≥ 1` the locator computes
`tableOffset[(n-1)/8028] + ((n-1) % 8028) * 256`, failing (returning `none`)
exactly when the group is absent; concretely inode 1 ↦ `tableOffset[0] + 0`,
inode 8028 ↦ `tableOffset[0] + 8027*256`, inode 8029 ↦ `tableOffset[1] + 0`. -/
theorem getAddressOfInode_c7 (tbl : Nat → Option Nat) (t0 t1 : Nat)
    (h0 : tbl 0 = some t0) (h1 : tbl 1 = some t1) :
    (∀ n, 1 ≤ n →
      getAddressOfInode tbl n = (tbl ((n - 1) / 8028)).map (fun s => s + ((n - 1) % 8028) * 256)) ∧
    getAddressOfInode tbl 1 = some (t0 + 0 * 256) ∧
    getAddressOfInode tbl 8028 = some (t0 + 8027 * 256) ∧
    getAddressOfInode tbl 8029 = some (t1 + 0 * 256) ∧
    (∀ n, 1 ≤ n → tbl ((n - 1) / 8028) = none → getAddressOfInode tbl n = none) := by
  have key : ∀ n, getAddressOfInode tbl n
      = (tbl ((n - 1) / 8028)).map (fun s => s + ((n - 1) % 8028) * 256) := by
    intro n
    unfold getAddressOfInode
    cases h : tbl ((n - 1) / 8028) <;> simp [h]
  refine ⟨fun n _ => key n, ?_, ?_, ?_, fun n _ hn => by rw [key n, hn]; rfl⟩
  · rw [key 1]; norm_num [h0]
  · rw [key 8028]; norm_num [h0]
  · rw [key 8029]; norm_num [h1]

/-- Witness for C7 at the concrete table `tblW`: the three concrete inode
addresses from the claim. -/
theorem getAddressOfInode_c7_witness :
    getAddressOfInode tblW 1 = some (4096000 + 0 * 256) ∧
    getAddressOfInode tblW 8028 = some (4096000 + 8027 * 256) ∧
    getAddressOfInode tblW 8029 = some (8192000 + 0 * 256) := by
  have h := getAddressOfInode_c7 tblW 4096000 8192000 rfl rfl
  exact ⟨h.2.1, h.2.2.1, h.2.2.2.1⟩

theorem writeByte_length (buf : List Nat) (pos v : Nat) :
    (writeByte buf pos v).length = buf.length := by
  unfold writeByte
  split <;> simp

theorem writeByte_getD_ne (buf : List Nat) (pos v q : Nat) (h : pos ≠ q) :
    (writeByte buf pos v).getD q 0 = buf.getD q 0 := by
  unfold writeByte
  split
  · rw [List.getD_eq_getElem?_getD, List.getElem?_set_ne h, ← List.getD_eq_getElem?_getD]
  · rfl

theorem foldl_writeByte_length (v : Nat → Nat) (st : Nat) :
    ∀ (L : List Nat) (b : List Nat),
      (L.foldl (fun b i => writeByte b (st + i) (v i)) b).length = b.length
  | [], _ => rfl
  | i :: L, b => by
    rw [List.foldl_cons, foldl_writeByte_length v st L, writeByte_length]

theorem foldl_writeByte_getD (v : Nat → Nat) (st pos : Nat) :
    ∀ (L : List Nat) (b : List Nat), (∀ i ∈ L, st + i ≠ pos) →
      (L.foldl (fun b i => writeByte b (st + i) (v i)) b).getD pos 0 = b.getD pos 0
  | [], _, _ => rfl
  | i :: L, b, h => by
    rw [List.foldl_cons,
      foldl_writeByte_getD v st pos L _ (fun j hj => h j (List.mem_cons_of_mem _ hj)),
      writeByte_getD_ne _ _ _ _ (h i (List.mem_cons_self i L))]

theorem applyMatch_length (buf : List Nat) (st : Nat) (ws : List (List Char)) :
    (applyMatch buf st ws).length = buf.length :=
  foldl_writeByte_length (byteOfWords ws) st (List.range 16) buf

theorem applyMatch_getD_outside (buf : List Nat) (st : Nat) (ws : List (List Char)) (pos : Nat)
    (h : pos < st ∨ st + 16 ≤ pos) :
    (applyMatch buf st ws).getD pos 0 = buf.getD pos 0 :=
  foldl_writeByte_getD (byteOfWords ws) st pos (List.range 16) buf
    (fun i hi => by
      have : i < 16 := List.mem_range.mp hi
      omega)

theorem parseHexStep_length (b : List Nat) (line : List Char) :
    (parseHexStep b line).length = b.length := by
  unfold parseHexStep
  cases h : parseHexLine line with
  | none => rfl
  | some p => exact applyMatch_length b p.1 p.2

theorem parseHexStep_getD_outside (b : List Nat) (line : List Char) (pos : Nat)
    (h : ∀ st ws, parseHexLine line = some (st, ws) → pos < st ∨ st + 16 ≤ pos) :
    (parseHexStep b line).getD pos 0 = b.getD pos 0 := by
  unfold parseHexStep
  cases hp : parseHexLine line with
  | none => rfl
  | some p => exact applyMatch_getD_outside b p.1 p.2 pos (h p.1 p.2 (by rw [hp]))

/-- Claim C10: `parseHex` is total (it is a plain function in the model; the
only out-of-range stores, those a matching line places beyond `size`, are
dropped by the `Uint8Array` write semantics of `writeByte` without resizing):
for every requested size and input text the result has exactly `size` bytes,
and every position not covered by the 16-byte span of some matching line is
zero; non-matching lines are skipped without error (`parseHexStep` leaves the
buffer unchanged on them). -/
theorem parseHex_c10 (size : Nat) (hex : List Char) :
    (parseHex size hex).length = size ∧
    (∀ pos, pos < size →
      (∀ line ∈ jsLines hex, ∀ st ws, parseHexLine line = some (st, ws) →
        pos < st ∨ st + 16 ≤ pos) →
      (parseHex size hex).getD pos 0 = 0) := by
  have step_len : ∀ (L : List (List Char)) (b : List Nat),
      (L.foldl parseHexStep b).length = b.length := by
    intro L
    induction L with
    | nil => intro b; rfl
    | cons line L ih =>
      intro b
      rw [List.foldl_cons, ih, parseHexStep_length]
  have step_getD : ∀ (L : List (List Char)) (b : List Nat) (pos : Nat),
      (∀ line ∈ L, ∀ st ws, parseHexLine line = some (st, ws) → pos < st ∨ st + 16 ≤ pos) →
      (L.foldl parseHexStep b).getD pos 0 = b.getD pos 0 := by
    intro L
    induction L with
    | nil => intro b pos _; rfl
    | cons line L ih =>
      intro b pos h
      rw [List.foldl_cons, ih _ pos (fun l hl => h l (List.mem_cons_of_mem _ hl)),
        parseHexStep_getD_outside _ _ _ (h line (List.mem_cons_self line L))]
  constructor
  · rw [parseHex, step_len, List.length_replicate]
  · intro pos _ h
    rw [parseHex, step_getD _ _ _ h, List.getD_eq_getElem?_getD, List.getElem?_replicate]
    split <;> rfl

/-- Witness for C10 at a concrete size and dump text: the dump `hexW` has one
matching line covering bytes 16–31, so the buffer has the requested 64 bytes
and byte 0 is zero. -/
theorem parseHex_c10_witness :
    (parseHex 64 hexW).length = 64 ∧ (parseHex 64 hexW).getD 0 0 = 0 := by
  refine ⟨(parseHex_c10 64 hexW).1, (parseHex_c10 64 hexW).2 0 (by decide) ?_⟩
  intro line hline st ws hp
  have hl : jsLines hexW = [hexW] := by decide
  rw [hl, List.mem_singleton] at hline
  subst hline
  have h16 : (parseHexLine hexW).map Prod.fst = some 16 := by decide
  rw [hp] at h16
  simp only [Option.map_some', Option.some.injEq] at h16
  left
  omega

theorem all_range_eq_false (n : Nat) (f : Nat → Bool) :
    ((List.range n).all f = false) ↔ ∃ i, i < n ∧ f i = false := by
  rw [← Bool.not_eq_true, List.all_eq_true]
  constructor
  · intro h
    by_contra hn
    push_neg at hn
    refine h fun i hi => ?_
    have hne := hn i (List.mem_range.mp hi)
    cases hf : f i
    · exact absurd hf hne
    · rfl
  · rintro ⟨i, hi, hf⟩ hall
    have := hall i (List.mem_range.mpr hi)
    rw [this] at hf
    cases hf

/-- Claim C5: at a leaf node (depth 0) the result is unsafe iff some entry's
byte run `[firstBlock*4096, (firstBlock+blockCount)*4096)` overlaps the
Bad-Region Index — in particular a single-entry leaf `{firstBlock: 10,
blockCount: 2}` yields exactly `rangeIsSafe 40960 49152` — and at an internal
node (depth > 0) the result is the entry-order conjunction of recursing on
each entry's fetched child block (`List.all`, which short-circuits at the
first `false` exactly like the source's early `return false`). -/
theorem extentsAreSafe_c5 (resp : Nat → List Char) (fuel : Nat) (buf : List Nat) :
    (readUInt16LE buf 0x06 = 0 →
      (extentsAreSafe resp (fuel + 1) buf = false ↔
        ∃ i, i < readUInt16LE buf 0x02 ∧
          rangeIsSafe (readUInt32LE buf (12 * (i + 1) + 0x08) * 4096)
            ((readUInt32LE buf (12 * (i + 1) + 0x08) + readUInt16LE buf (12 * (i + 1) + 0x04))
              * 4096) = false)) ∧
    (readUInt16LE buf 0x06 = 0 → readUInt16LE buf 0x02 = 1 →
      readUInt32LE buf 20 = 10 → readUInt16LE buf 16 = 2 →
      extentsAreSafe resp (fuel + 1) buf = rangeIsSafe 40960 49152) ∧
    (readUInt16LE buf 0x06 ≠ 0 →
      extentsAreSafe resp (fuel + 1) buf =
        (List.range (readUInt16LE buf 0x02)).all (fun i =>
          extentsAreSafe resp fuel (fetchBlock resp (readUInt32LE buf (12 * (i + 1) + 0x04))))) := by
  refine ⟨?_, ?_, ?_⟩
  · intro hd
    have heq : extentsAreSafe resp (fuel + 1) buf =
        (List.range (readUInt16LE buf 0x02)).all (fun i =>
          rangeIsSafe (readUInt32LE buf (12 * (i + 1) + 0x08) * 4096)
            ((readUInt32LE buf (12 * (i + 1) + 0x08) + readUInt16LE buf (12 * (i + 1) + 0x04))
              * 4096)) := by
      simp [extentsAreSafe, hd]
    rw [heq, all_range_eq_false]
  · intro hd hc hfb hbc
    have heq : extentsAreSafe resp (fuel + 1) buf =
        (List.range (readUInt16LE buf 0x02)).all (fun i =>
          rangeIsSafe (readUInt32LE buf (12 * (i + 1) + 0x08) * 4096)
            ((readUInt32LE buf (12 * (i + 1) + 0x08) + readUInt16LE buf (12 * (i + 1) + 0x04))
              * 4096)) := by
      simp [extentsAreSafe, hd]
    rw [heq, hc]
    have hr1 : List.range 1 = [0] := rfl
    rw [hr1]
    norm_num [List.all_cons, List.all_nil, hfb, hbc]
  · intro hd
    have hl : (readUInt16LE buf 0x06 == 0) = false := by simpa using hd
    simp [extentsAreSafe, hl]

/-- Witness for C5: on the concrete single-entry leaf node `extentLeaf102`
the resolver computes exactly the claimed overlap query for bytes
40960–49152. -/
theorem extentsAreSafe_c5_witness :
    extentsAreSafe respZero 1 extentLeaf102 = rangeIsSafe 40960 49152 :=
  (extentsAreSafe_c5 respZero 0 extentLeaf102).2.1 (by decide) (by decide) (by decide) (by decide)

/-- Claim C3 is the intended behaviour but the code misclassifies: the walker
decides the entry's type with the bit tests `mode & 0x8000` (`isFile`) and
`mode & 0x4000` (`isDir`) instead of comparing the full ext2 type nibble
`mode >> 12`.  On `inodeSymlink` (mode 0xA1FF, a symbolic link — type nibble
0xA — whose first block pointer lies in a bad range) `isFile` is true, so the
walker runs the data-safety test on the symlink and reports it `BAD` instead
of ignoring it; on `inodeSocket` (mode 0xC100, a socket — type nibble 0xC)
`isDir` is true and the walker recurses into it as a directory. -/
theorem entryStep_c3 :
    readUInt16LE inodeSymlink 0 = 0xA1FF ∧
    readUInt16LE inodeSymlink 0 / 4096 = 0xA ∧
    isFile inodeSymlink = true ∧
    entryStep respZero 1 inodeSymlink = (true, false) ∧
    readUInt16LE inodeSocket 0 = 0xC100 ∧
    readUInt16LE inodeSocket 0 / 4096 = 0xC ∧
    isDir inodeSocket = true ∧
    entryStep respZero 1 inodeSocket = (false, true) := by decide

theorem indexOfFrom_bound : ∀ (s p : List Char) (i : Nat), p ≠ [] →
    indexOfFrom s p = some i → i + p.length ≤ s.length
  | [], p, i, hp, h => by
    have hne : p.isEmpty = false := by
      cases p with
      | nil => exact absurd rfl hp
      | cons c cs => rfl
    simp [indexOfFrom, hne] at h
  | c :: rest, p, i, hp, h => by
    by_cases hpre : isPre p (c :: rest) = true
    · have htake : (c :: rest).take p.length = p := by
        have hp' := hpre
        simp only [isPre, decide_eq_true_eq] at hp'
        exact hp'
      have hlen : p.length ≤ (c :: rest).length := by
        have hl := congrArg List.length htake
        rw [List.length_take] at hl
        omega
      rw [indexOfFrom, if_pos hpre] at h
      cases h
      omega
    · rw [indexOfFrom, if_neg hpre] at h
      rcases Option.map_eq_some'.mp h with ⟨j, hj, hji⟩
      have hrec := indexOfFrom_bound rest p j hp hj
      simp only [List.length_cons]
      omega

theorem splitGo_eq (prompt : List Char) (hp : prompt ≠ []) :
    ∀ (f1 f2 : Nat) (s : List Char), s.length < f1 → s.length < f2 →
      splitGo prompt f1 s = splitGo prompt f2 s
  | 0, _, _, h1, _ => absurd h1 (by omega)
  | _ + 1, 0, _, _, h2 => absurd h2 (by omega)
  | f1 + 1, f2 + 1, s, h1, h2 => by
    cases hio : indexOfFrom s prompt with
    | none => simp [splitGo, hio]
    | some i =>
      have hb := indexOfFrom_bound s prompt i hp hio
      have hplen : 0 < prompt.length := List.length_pos.mpr hp
      have hdl : (s.drop (i + prompt.length)).length < f1 := by
        rw [List.length_drop]
        omega
      have hdl2 : (s.drop (i + prompt.length)).length < f2 := by
        rw [List.length_drop]
        omega
      simp only [splitGo, hio]
      rw [splitGo_eq prompt hp f1 f2 _ hdl hdl2]

theorem lookForPrompt_none (prompt s : List Char) (hio : indexOfFrom s prompt = none) :
    lookForPrompt prompt s = ([], s) := by
  simp [lookForPrompt, splitGo, hio]

theorem lookForPrompt_some (prompt s : List Char) (i : Nat) (hp : prompt ≠ [])
    (hio : indexOfFrom s prompt = some i) :
    lookForPrompt prompt s
      = (s.take i :: (lookForPrompt prompt (s.drop (i + prompt.length))).1,
         (lookForPrompt prompt (s.drop (i + prompt.length))).2) := by
  have hb := indexOfFrom_bound s prompt i hp hio
  have hplen : 0 < prompt.length := List.length_pos.mpr hp
  have hA : (s.drop (i + prompt.length)).length < s.length := by
    rw [List.length_drop]
    omega
  conv_lhs => rw [lookForPrompt]
  rw [show splitGo prompt (s.length + 1) s
      = (s.take i :: (splitGo prompt s.length (s.drop (i + prompt.length))).1,
         (splitGo prompt s.length (s.drop (i + prompt.length))).2) from by
    simp only [splitGo, hio]]
  rw [splitGo_eq prompt hp s.length ((s.drop (i + prompt.length)).length + 1) _ hA (by omega)]
  rfl

theorem lookForPrompt_rem_none (prompt : List Char) (hp : prompt ≠ []) :
    ∀ (n : Nat) (s : List Char), s.length ≤ n →
      indexOfFrom (lookForPrompt prompt s).2 prompt = none
  | 0, s, hn => by
    have hs : s = [] := List.eq_nil_of_length_eq_zero (by omega)
    subst hs
    have hne : prompt.isEmpty = false := by
      cases prompt with
      | nil => exact absurd rfl hp
      | cons c cs => rfl
    have hio : indexOfFrom ([] : List Char) prompt = none := by
      simp [indexOfFrom, hne]
    rw [lookForPrompt_none prompt [] hio]
    exact hio
  | n + 1, s, hn => by
    cases hio : indexOfFrom s prompt with
    | none =>
      rw [lookForPrompt_none prompt s hio]
      exact hio
    | some i =>
      have hb := indexOfFrom_bound s prompt i hp hio
      have hplen : 0 < prompt.length := List.length_pos.mpr hp
      rw [lookForPrompt_some prompt s i hp hio]
      exact lookForPrompt_rem_none prompt hp n (s.drop (i + prompt.length))
        (by rw [List.length_drop]; omega)

theorem isPre_append (p x b : List Char) (h : p.length ≤ x.length) :
    isPre p (x ++ b) = isPre p x := by
  unfold isPre
  rw [List.take_append_of_le_length h]

theorem indexOfFrom_append (p : List Char) (hp : p ≠ []) :
    ∀ (a b : List Char) (i : Nat), indexOfFrom a p = some i →
      indexOfFrom (a ++ b) p = some i
  | [], b, i, h => by
    have hne : p.isEmpty = false := by
      cases p with
      | nil => exact absurd rfl hp
      | cons c cs => rfl
    simp [indexOfFrom, hne] at h
  | c :: rest, b, i, h => by
    by_cases hpre : isPre p (c :: rest) = true
    · have htake : (c :: rest).take p.length = p := by
        have hp' := hpre
        simp only [isPre, decide_eq_true_eq] at hp'
        exact hp'
      have hlen : p.length ≤ (c :: rest).length := by
        have hl := congrArg List.length htake
        rw [List.length_take] at hl
        omega
      have hpre2 : isPre p ((c :: rest) ++ b) = true := by
        rw [isPre_append p (c :: rest) b hlen]
        exact hpre
      rw [indexOfFrom, if_pos hpre] at h
      cases h
      simp only [List.cons_append, indexOfFrom, List.append_eq]
      rw [if_pos (by simpa [List.cons_append] using hpre2)]
    · rw [indexOfFrom, if_neg hpre] at h
      rcases Option.map_eq_some'.mp h with ⟨j, hj, hji⟩
      have hbnd := indexOfFrom_bound rest p j hp hj
      have hlen : p.length ≤ (c :: rest).length := by
        simp only [List.length_cons]
        omega
      have hpreb : isPre p ((c :: rest) ++ b) = false := by
        rw [isPre_append p (c :: rest) b hlen]
        cases hv : isPre p (c :: rest)
        · rfl
        · exact absurd hv hpre
      have hpreb' : ¬ isPre p (c :: (rest ++ b)) = true := by
        intro hcontra
        rw [← List.cons_append] at hcontra
        rw [hcontra] at hpreb
        cases hpreb
      simp only [List.cons_append, indexOfFrom, List.append_eq]
      rw [if_neg hpreb', indexOfFrom_append p hp rest b j hj]
      simp [hji]

theorem lookForPrompt_append (prompt : List Char) (hp : prompt ≠ []) :
    ∀ (n : Nat) (a b : List Char), a.length ≤ n →
      lookForPrompt prompt (a ++ b)
        = ((lookForPrompt prompt a).1
            ++ (lookForPrompt prompt ((lookForPrompt prompt a).2 ++ b)).1,
           (lookForPrompt prompt ((lookForPrompt prompt a).2 ++ b)).2)
  | 0, a, b, hn => by
    have ha : a = [] := List.eq_nil_of_length_eq_zero (by omega)
    subst ha
    have hne : prompt.isEmpty = false := by
      cases prompt with
      | nil => exact absurd rfl hp
      | cons c cs => rfl
    have hio : indexOfFrom ([] : List Char) prompt = none := by
      simp [indexOfFrom, hne]
    rw [lookForPrompt_none prompt [] hio]
    simp
  | n + 1, a, b, hn => by
    cases hio : indexOfFrom a prompt with
    | none =>
      rw [lookForPrompt_none prompt a hio]
      simp
    | some i =>
      have hb2 := indexOfFrom_bound a prompt i hp hio
      have hplen : 0 < prompt.length := List.length_pos.mpr hp
      have hioab : indexOfFrom (a ++ b) prompt = some i :=
        indexOfFrom_append prompt hp a b i hio
      rw [lookForPrompt_some prompt (a ++ b) i hp hioab,
        lookForPrompt_some prompt a i hp hio,
        List.take_append_of_le_length (by omega),
        List.drop_append_of_le_length (by omega),
        lookForPrompt_append prompt hp n (a.drop (i + prompt.length)) b
          (by rw [List.length_drop]; omega)]
      simp [List.cons_append]

theorem lookForPrompt_append_fst (prompt : List Char) (hp : prompt ≠ []) (a b : List Char) :
    (lookForPrompt prompt (a ++ b)).1
      = (lookForPrompt prompt a).1
        ++ (lookForPrompt prompt ((lookForPrompt prompt a).2 ++ b)).1 := by
  rw [lookForPrompt_append prompt hp a.length a b le_rfl]

/-- Claim C4 names the intended output, but the code prints the root path
empty: `recurse` reports `BAD ${path ?? '/'}`, and for the root call
`path` is the empty string, which JavaScript's `??` does not replace (only
`null`/`undefined` are nullish), so the line printed is `BAD ` — not
`BAD /`.  On the concrete extent-addressed root inode `inodeRootBad`, whose
only leaf run lies in a bad range, the data-safety test fails, the single
line `BAD ` is printed, and the directory listing is not requested.  (The
trigger the code tests for the root is `dataIsSafe()` on its block pointers;
the storage address of the root's own inode record is never checked —
`inodeIsSafe` is applied only to the entries of a listed parent.) -/
theorem recurseStep_c4 :
    usesExtents inodeRootBad = true ∧
    dataIsSafe respZero 1 inodeRootBad = false ∧
    recurseStep respZero 1 "" inodeRootBad = (["BAD "], false) ∧
    ("BAD " : String) ≠ "BAD /" := by decide

theorem dispatchMs_eq : ∀ (ms : List (List Char)) (pend : List Nat) (found : List (List Char)),
    dispatchMs ms pend found
      = (pend.drop ms.length, found ++ ms.drop pend.length,
         (pend.zip ms).map (fun pm => (pm.1, some pm.2)))
  | [], pend, found => by simp [dispatchMs]
  | m :: ms, p :: ps, found => by
    simp [dispatchMs, dispatchMs_eq ms ps found]
  | m :: ms, [], found => by
    simp [dispatchMs, dispatchMs_eq ms [] (found ++ [m])]

theorem zip_append_left (a b : List Nat) (y : List (List Char)) :
    (a ++ b).zip y = a.zip y ++ b.zip (y.drop a.length) := by
  induction a generalizing y with
  | nil => simp
  | cons x a ih =>
    cases y with
    | nil => simp
    | cons m y => simp [ih]

theorem zip_append_right (x : List Nat) (c d : List (List Char)) :
    x.zip (c ++ d) = x.zip c ++ (x.drop c.length).zip d := by
  induction c generalizing x with
  | nil => simp
  | cons m c ih =>
    cases x with
    | nil => simp
    | cons p x => simp [ih]

theorem runExp_nil (prompt : List Char) (s : ExpState) : runExp prompt s [] = (s, []) := rfl

theorem runExp_cons (prompt : List Char) (s : ExpState) (e : Ev) (es : List Ev) :
    runExp prompt s (e :: es)
      = ((runExp prompt (step prompt s e).1 es).1,
         (step prompt s e).2 ++ (runExp prompt (step prompt s e).1 es).2) := rfl

theorem runExp_cons_snd (prompt : List Char) (s : ExpState) (e : Ev) (es : List Ev) :
    (runExp prompt s (e :: es)).2
      = (step prompt s e).2 ++ (runExp prompt (step prompt s e).1 es).2 := rfl

theorem nextIds_data (c : List Char) (t : List Ev) : nextIds (Ev.data c :: t) = nextIds t := rfl

theorem nextIds_next (id : Nat) (t : List Ev) :
    nextIds (Ev.next id :: t) = id :: nextIds t := rfl

theorem nextIds_dispose (t : List Ev) : nextIds (Ev.dispose :: t) = nextIds t := rfl

theorem dataBytes_data (c : List Char) (t : List Ev) :
    dataBytes (Ev.data c :: t) = c ++ dataBytes t := rfl

theorem dataBytes_next (id : Nat) (t : List Ev) : dataBytes (Ev.next id :: t) = dataBytes t := rfl

/-- FIFO bookkeeping of one dispatch round: resolving the oldest pending
callers with the newly extracted responses and buffering the overflow is the
same as zipping all callers with all responses, provided calls and buffered
responses were never simultaneously waiting. -/
theorem zip_dispatch_assoc (q N : List Nat) (f ms R2 : List (List Char))
    (hinv : f = [] ∨ q = []) :
    q.zip ms ++ (q.drop ms.length ++ N).zip ((f ++ ms.drop q.length) ++ R2)
      = (q ++ N).zip (f ++ (ms ++ R2)) := by
  rcases hinv with hf | hq
  · subst hf
    simp only [List.nil_append]
    induction q generalizing ms with
    | nil => simp
    | cons p q ih =>
      cases ms with
      | nil => simp
      | cons m ms => simp [ih]
  · subst hq
    simp [List.append_assoc]

/-- The FIFO law of the multiplexer over any dispose-free trace starting in a
consistent state: the resolutions, in order, pair the pending ids followed by
the later `next()` ids (issue order) with the buffered responses followed by
the prompt-delimited responses of the arriving bytes (arrival order). -/
theorem runExp_pair (prompt : List Char) (hp : prompt ≠ []) :
    ∀ (t : List Ev) (s : ExpState),
      (s.found = [] ∨ s.pending = []) → s.dead = false →
      indexOfFrom s.buf prompt = none → Ev.dispose ∉ t →
      (runExp prompt s t).2
        = ((s.pending ++ nextIds t).zip
            (s.found ++ (lookForPrompt prompt (s.buf ++ dataBytes t)).1)).map
            (fun pm => (pm.1, some pm.2))
  | [], s, hinv, hdead, hbuf, hnd => by
    rw [runExp_nil]
    rw [show dataBytes [] = [] from rfl, show nextIds ([] : List Ev) = [] from rfl,
      List.append_nil, List.append_nil, lookForPrompt_none prompt s.buf hbuf]
    rcases hinv with hf | hq
    · rw [hf]
      simp
    · rw [hq]
      simp
  | e :: t, s, hinv, hdead, hbuf, hnd => by
    have hnd' : Ev.dispose ∉ t := fun hmem => hnd (List.mem_cons_of_mem _ hmem)
    cases e with
    | dispose => exact absurd (List.mem_cons_self _ _) hnd
    | data chunk =>
      have hstep1 : (step prompt s (Ev.data chunk)).1
          = ⟨s.found ++ (lookForPrompt prompt (s.buf ++ chunk)).1.drop s.pending.length,
             s.pending.drop (lookForPrompt prompt (s.buf ++ chunk)).1.length,
             (lookForPrompt prompt (s.buf ++ chunk)).2, s.dead⟩ := by
        simp [step, hdead, dispatchMs_eq]
      have hstep2 : (step prompt s (Ev.data chunk)).2
          = (s.pending.zip (lookForPrompt prompt (s.buf ++ chunk)).1).map
              (fun pm => (pm.1, some pm.2)) := by
        simp [step, hdead, dispatchMs_eq]
      rw [runExp_cons_snd, hstep1, hstep2]
      have hInv' : (s.found ++ (lookForPrompt prompt (s.buf ++ chunk)).1.drop s.pending.length
            = [] ∨ s.pending.drop (lookForPrompt prompt (s.buf ++ chunk)).1.length = []) := by
        rcases hinv with hf | hq
        · rcases le_or_lt (lookForPrompt prompt (s.buf ++ chunk)).1.length s.pending.length
            with hle | hlt
          · left
            rw [hf, List.nil_append]
            exact List.drop_eq_nil_iff.mpr hle
          · right
            exact List.drop_eq_nil_iff.mpr (le_of_lt hlt)
        · right
          rw [hq]
          simp
      have hbuf' : indexOfFrom (lookForPrompt prompt (s.buf ++ chunk)).2 prompt = none :=
        lookForPrompt_rem_none prompt hp (s.buf ++ chunk).length (s.buf ++ chunk) le_rfl
      rw [runExp_pair prompt hp t
        ⟨s.found ++ (lookForPrompt prompt (s.buf ++ chunk)).1.drop s.pending.length,
         s.pending.drop (lookForPrompt prompt (s.buf ++ chunk)).1.length,
         (lookForPrompt prompt (s.buf ++ chunk)).2, s.dead⟩
        hInv' hdead hbuf' hnd']
      simp only [nextIds_data, dataBytes_data]
      rw [← List.append_assoc s.buf chunk (dataBytes t),
        lookForPrompt_append_fst prompt hp (s.buf ++ chunk) (dataBytes t),
        ← List.map_append]
      rw [zip_dispatch_assoc s.pending (nextIds t) s.found
        (lookForPrompt prompt (s.buf ++ chunk)).1
        (lookForPrompt prompt ((lookForPrompt prompt (s.buf ++ chunk)).2 ++ dataBytes t)).1
        hinv]
    | next id =>
      cases hf : s.found with
      | cons m ms' =>
        have hq : s.pending = [] := by
          rcases hinv with hfn | hqn
          · rw [hfn] at hf
            cases hf
          · exact hqn
        have hstep1 : (step prompt s (Ev.next id)).1 = { s with found := ms' } := by
          simp [step, hf]
        have hstep2 : (step prompt s (Ev.next id)).2 = [(id, some m)] := by
          simp [step, hf]
        rw [runExp_cons_snd, hstep1, hstep2,
          runExp_pair prompt hp t { s with found := ms' } (Or.inr hq) hdead hbuf hnd']
        simp only [nextIds_next, dataBytes_next]
        rw [hq]
        simp
      | nil =>
        have hstep1 : (step prompt s (Ev.next id)).1
            = { s with pending := s.pending ++ [id] } := by
          simp [step, hf, hdead]
        have hstep2 : (step prompt s (Ev.next id)).2 = [] := by
          simp [step, hf, hdead]
        rw [runExp_cons_snd, hstep1, hstep2,
          runExp_pair prompt hp t { s with pending := s.pending ++ [id] }
            (Or.inl hf) hdead hbuf hnd']
        simp only [nextIds_next, dataBytes_next]
        rw [hf]
        simp

/-- Claim C8: the Session Multiplexer pairs calls and responses in strict
FIFO order.  Over any dispose-free event trace, the resolutions pair the Nth
`next()` call (in issue order) with the Nth prompt-delimited response of the
byte stream (in arrival order) — there is no identifier correlation, the
pairing depends only on the two orders — and this truncated-`zip` statement
also covers buffering: responses arriving while no call is outstanding are
handed, in arrival order, to later calls.  The second conjunct shows such a
buffered response is returned by `next()` immediately in the same step, with
no suspension. -/
theorem expect_fifo_c8 (prompt : List Char) (hp : prompt ≠ []) (t : List Ev)
    (hnd : Ev.dispose ∉ t) :
    (runExp prompt expInit t).2
      = ((nextIds t).zip (lookForPrompt prompt (dataBytes t)).1).map
          (fun pm => (pm.1, some pm.2)) ∧
    (∀ (s : ExpState) (id : Nat) (m : List Char) (ms : List (List Char)),
      s.found = m :: ms →
      step prompt s (Ev.next id) = ({ s with found := ms }, [(id, some m)])) := by
  constructor
  · have hne : prompt.isEmpty = false := by
      cases prompt with
      | nil => exact absurd rfl hp
      | cons c cs => rfl
    have hbuf0 : indexOfFrom expInit.buf prompt = none := by
      simp [expInit, indexOfFrom, hne]
    have h := runExp_pair prompt hp t expInit (Or.inl rfl) rfl hbuf0 hnd
    rw [h]
    simp [expInit]
  · intro s id m ms hfs
    simp [step, hfs]

/-- Witness for C8 at a concrete prompt and trace: the stream delivers
`"hiP"` before any call, and the later `next()` call 0 receives the buffered
response `"hi"`. -/
theorem expect_fifo_c8_witness :
    (runExp promptW expInit [Ev.data chunkHiP, Ev.next 0]).2 = [(0, some ['h', 'i'])] := by
  have h := (expect_fifo_c8 promptW (by decide) [Ev.data chunkHiP, Ev.next 0] (by decide)).1
  rw [h]
  decide

theorem runExp_append (prompt : List Char) :
    ∀ (t1 t2 : List Ev) (s : ExpState),
      runExp prompt s (t1 ++ t2)
        = ((runExp prompt (runExp prompt s t1).1 t2).1,
           (runExp prompt s t1).2 ++ (runExp prompt (runExp prompt s t1).1 t2).2)
  | [], t2, s => by simp [runExp_nil]
  | e :: t1, t2, s => by
    simp only [List.cons_append, runExp_cons]
    rw [runExp_append prompt t1 t2 (step prompt s e).1]
    simp [List.append_assoc]

/-- After disposal — in any state that is dead with no pending resolver —
the multiplexer first drains the `found` buffer successfully, in order, and
every further `next()` call fails; `data` events are ignored. -/
theorem runExp_dead (prompt : List Char) :
    ∀ (t : List Ev) (s : ExpState), s.dead = true → s.pending = [] →
      (runExp prompt s t).2
        = ((nextIds t).zip s.found).map (fun pm => (pm.1, some pm.2))
          ++ ((nextIds t).drop s.found.length).map
              (fun i => (i, (none : Option (List Char))))
  | [], s, hdead, hpend => by simp [runExp_nil, nextIds]
  | Ev.data c :: t, s, hdead, hpend => by
    have hstep1 : (step prompt s (Ev.data c)).1 = s := by
      simp [step, hdead]
    have hstep2 : (step prompt s (Ev.data c)).2 = [] := by
      simp [step, hdead]
    rw [runExp_cons_snd, hstep1, hstep2, runExp_dead prompt t s hdead hpend]
    simp [nextIds_data]
  | Ev.next id :: t, s, hdead, hpend => by
    cases hfs : s.found with
    | nil =>
      have hstep1 : (step prompt s (Ev.next id)).1 = s := by
        simp [step, hfs, hdead]
      have hstep2 : (step prompt s (Ev.next id)).2 = [(id, none)] := by
        simp [step, hfs, hdead]
      rw [runExp_cons_snd, hstep1, hstep2, runExp_dead prompt t s hdead hpend]
      rw [hfs]
      simp [nextIds_next]
    | cons m ms' =>
      have hstep1 : (step prompt s (Ev.next id)).1 = { s with found := ms' } := by
        simp [step, hfs]
      have hstep2 : (step prompt s (Ev.next id)).2 = [(id, some m)] := by
        simp [step, hfs]
      rw [runExp_cons_snd, hstep1, hstep2,
        runExp_dead prompt t { s with found := ms' } hdead hpend]
      simp [nextIds_next]
  | Ev.dispose :: t, s, hdead, hpend => by
    have hstep1 : (step prompt s Ev.dispose).1 = { s with dead := true, pending := [] } := by
      simp [step]
    have hstep2 : (step prompt s Ev.dispose).2 = [] := by
      simp [step, hpend]
    rw [runExp_cons_snd, hstep1, hstep2,
      runExp_dead prompt t { s with dead := true, pending := [] } rfl rfl]
    simp [nextIds_dispose]

/-- Claim C9 (amended): on any trace, at the `dispose()` event every
outstanding `next()` call is rejected with the disposed error, and the
`next()` calls made afterwards first receive the responses already buffered
in `found` at disposal time — the source checks `found` before
`streamError` — in arrival order, and every later call fails with the
disposed error. -/
theorem expect_dispose_c9_amended (prompt : List Char) (pre post : List Ev) :
    (runExp prompt expInit (pre ++ Ev.dispose :: post)).2
      = (runExp prompt expInit pre).2
        ++ ((runExp prompt expInit pre).1.pending).map
            (fun p => (p, (none : Option (List Char))))
        ++ (((nextIds post).zip ((runExp prompt expInit pre).1.found)).map
              (fun pm => (pm.1, some pm.2))
            ++ ((nextIds post).drop ((runExp prompt expInit pre).1.found).length).map
                (fun i => (i, (none : Option (List Char))))) := by
  have happ : (runExp prompt expInit (pre ++ Ev.dispose :: post)).2
      = (runExp prompt expInit pre).2
        ++ (runExp prompt (runExp prompt expInit pre).1 (Ev.dispose :: post)).2 := by
    rw [runExp_append prompt pre (Ev.dispose :: post) expInit]
  have hstep1 : (step prompt (runExp prompt expInit pre).1 Ev.dispose).1
      = { (runExp prompt expInit pre).1 with dead := true, pending := [] } := by
    simp [step]
  have hstep2 : (step prompt (runExp prompt expInit pre).1 Ev.dispose).2
      = ((runExp prompt expInit pre).1.pending).map
          (fun p => (p, (none : Option (List Char)))) := by
    simp [step]
  rw [happ, runExp_cons_snd, hstep1, hstep2,
    runExp_dead prompt post
      { (runExp prompt expInit pre).1 with dead := true, pending := [] } rfl rfl]
  simp [List.append_assoc]

/-- Claim C9 (counterexample): a response buffered before `dispose()` is
still returned successfully by a `next()` call made after `dispose()` — the
call does not fail with the disposed error as the claim states.  Concretely,
with prompt `"P"`, the stream delivers `"hiP"` (response `"hi"` buffered with
no call outstanding), `dispose()` runs, and a later `next()` resolves with
`"hi"`. -/
theorem expect_dispose_c9_counterexample :
    (runExp promptW expInit [Ev.data chunkHiP, Ev.dispose, Ev.next 0]).2
      = [(0, some ['h', 'i'])] ∧
    (0, (none : Option (List Char)))
      ∉ (runExp promptW expInit [Ev.data chunkHiP, Ev.dispose, Ev.next 0]).2 := by
  decide

end Findbad
